import Mathlib

/-!
Shallow embedding of `src/code.py`, the theoretical yield calculator.

The Python function `calculate_theoretical_yield(reactants, product_smiles,
mole_ratio_product)` takes a dict mapping reactant names to records with
optional fields `smiles`, `weight_g` and `mole_ratio`, resolves each SMILES
string through RDKit (`Chem.MolFromSmiles`, `CalcExactMolWt`), computes
normalized mole counts, picks the limiting reactant by `min(..., key=...)`,
resolves the product SMILES, and returns either a success dict
`{"theoretical_yield_g": ..., "limiting_reactant": ...}` or an error dict
`{"error": <message>}`.

Modelling choices:
- Python floats are modelled as rationals; Python float division raises
  `ZeroDivisionError` when the divisor is zero, which the surrounding
  `except Exception` handler (lines 46-47) converts into an error record.
  That path is embedded as the `unexpectedReactantError` constructor.
- The RDKit collaborator is an abstract `Resolver`: `MolFromSmiles` returns
  `none` exactly when RDKit returns a falsy molecule (lines 39, 62), and
  `CalcExactMolWt` is total into the rationals. Neither RDKit call raises
  in this model, so the only exception reachable inside the two
  `try` blocks of the source is `ZeroDivisionError` (lines 43 and 44;
  the product block, lines 61-65, contains no division, so its handler at
  lines 66-67 is unreachable and has no constructor).
- The Python dict `reactants` is modelled as an association list in
  insertion (iteration) order; dict keys are unique in Python, and the loop
  at line 30 and `min` at line 53 both follow that single order.
- Each distinct error format string of the source is one constructor of
  `CalcError` (the message text itself is presentation, not behaviour).
-/

/-- Abstract interface of the external RDKit collaborator: `MolFromSmiles`
resolves a SMILES string to a molecule or fails, `CalcExactMolWt` returns the
exact molecular weight of a resolved molecule. -/
structure Resolver (Mol : Type) where
  MolFromSmiles : String → Option Mol
  CalcExactMolWt : Mol → ℚ

/-- One value of the `reactants` dict: a record with the three optional keys
read by `data.get` at lines 31, 32 and 44 of the source. An absent key is
`none`. -/
structure ReactantData where
  smiles : Option String
  weight_g : Option ℚ
  mole_ratio : Option ℚ
  deriving DecidableEq

/-- The error records of `calculate_theoretical_yield`, one constructor per
distinct format string in the source:
- `missingField name` : line 35, invalid data for a reactant, missing SMILES or weight;
- `reactantParseFailure name smiles` : line 40, could not parse a reactant SMILES;
- `unexpectedReactantError name` : line 47, the umbrella handler for the
  `try` block of lines 37-45 (reached exactly by `ZeroDivisionError`);
- `noReactants` : line 51, no valid reactants provided;
- `productParseFailure smiles` : line 63, could not parse the product SMILES. -/
inductive CalcError where
  | missingField (name : String)
  | reactantParseFailure (name : String) (smiles : String)
  | unexpectedReactantError (name : String)
  | noReactants
  | productParseFailure (smiles : String)
  deriving DecidableEq

/-- The return value of `calculate_theoretical_yield`: either the success dict
of lines 72-75 or an error dict. -/
inductive CalcResult where
  | success (theoretical_yield_g : ℚ) (limiting_reactant : String)
  | error (e : CalcError)
  deriving DecidableEq

/-- Python truthiness of the optional string `data.get('smiles')`:
`not smiles` at line 34 is true when the key is absent (`None`) or the string
is empty. -/
def strFalsy : Option String → Bool
  | none => true
  | some s => s == ""

/-- Python truthiness of the optional float `data.get('weight_g')`:
`not weight_g` at line 34 is true when the key is absent (`None`) or the
number equals zero. -/
def numFalsy : Option ℚ → Bool
  | none => true
  | some w => w == 0

/-- The body of the `for` loop at lines 30-47 of the source, for one reactant:
validate the presence of SMILES and weight, resolve the SMILES, compute
`moles = weight_g / mol_weight` and return `moles / mole_ratio` with the
ratio defaulting to `1.0`. The two `unexpectedReactantError` branches embed
the `ZeroDivisionError` raised by Python float division when `mol_weight`
(line 43) or the mole ratio (line 44) is zero, caught at lines 46-47. -/
def processReactant {Mol : Type} (R : Resolver Mol) (name : String)
    (data : ReactantData) : Except CalcError ℚ :=
  if strFalsy data.smiles || numFalsy data.weight_g then
    .error (.missingField name)
  else
    match R.MolFromSmiles (data.smiles.getD "") with
    | none => .error (.reactantParseFailure name (data.smiles.getD ""))
    | some mol =>
      let mol_weight := R.CalcExactMolWt mol
      if mol_weight = 0 then .error (.unexpectedReactantError name)
      else
        let moles := data.weight_g.getD 0 / mol_weight
        let ratio := data.mole_ratio.getD 1
        if ratio = 0 then .error (.unexpectedReactantError name)
        else .ok (moles / ratio)

/-- The whole `for` loop at lines 30-47: process the reactants in iteration
order, accumulating `moles_of_reactants` as an association list in insertion
order, returning the first error record immediately as the loop does with its
early `return` statements. -/
def processReactants {Mol : Type} (R : Resolver Mol) :
    List (String × ReactantData) → List (String × ℚ) →
    Except CalcError (List (String × ℚ))
  | [], acc => .ok acc
  | (name, data) :: rest, acc =>
    match processReactant R name data with
    | .error e => .error e
    | .ok v => processReactants R rest (acc ++ [(name, v)])

/-- Python `min(iterable, key=...)` specialised to line 53 of the source:
starting from the first entry it keeps the current best and replaces it only
when a later value is strictly smaller, so the first entry attaining the
minimum wins ties. -/
def minBy : (String × ℚ) → List (String × ℚ) → (String × ℚ)
  | best, [] => best
  | best, p :: rest => minBy (if p.2 < best.2 then p else best) rest

/-- The function `calculate_theoretical_yield` of lines 12-75 of `src/code.py`:
process all reactants, fail with `noReactants` on an empty collection
(lines 50-51), pick the limiting reactant by `min` over the normalized mole
counts (lines 53-54), resolve the product SMILES (lines 60-67; no exception
is reachable in that block in this model) and return
`moles_limiting * mole_ratio_product * product_mol_weight` (lines 57 and 70). -/
def calculate_theoretical_yield {Mol : Type} (R : Resolver Mol)
    (reactants : List (String × ReactantData))
    (product_smiles : String) (mole_ratio_product : ℚ) : CalcResult :=
  match processReactants R reactants [] with
  | .error e => .error e
  | .ok moles_of_reactants =>
    match moles_of_reactants with
    | [] => .error .noReactants
    | first :: others =>
      let lim := minBy first others
      let theoretical_moles_product := lim.2 * mole_ratio_product
      match R.MolFromSmiles product_smiles with
      | none => .error (.productParseFailure product_smiles)
      | some product_mol =>
        .success (theoretical_moles_product * R.CalcExactMolWt product_mol)
          lim.1

/-- Classifier: is the result a parse-failure-kind error record
(line 40 or line 63 of the source)? -/
def isParseFailureResult : CalcResult → Bool
  | .error (.reactantParseFailure _ _) => true
  | .error (.productParseFailure _) => true
  | _ => false

/-- Classifier: is the result a missing-field-kind error record
(line 35 of the source)? -/
def isMissingFieldResult : CalcResult → Bool
  | .error (.missingField _) => true
  | _ => false

/-- Classifier: is the result a success record (lines 72-75 of the source)? -/
def isSuccessResult : CalcResult → Bool
  | .success _ _ => true
  | _ => false

/-- A concrete resolver used to instantiate theorems: it resolves every
SMILES string except "XX", "QQ" and the empty string, giving ethanol
weight 46, water weight 18 and any other molecule weight 10. -/
def demoResolver : Resolver String where
  MolFromSmiles := fun s => if s == "XX" || s == "QQ" || s == "" then none else some s
  CalcExactMolWt := fun m => if m == "CCO" then 46 else if m == "O" then 18 else 10

/-- A degenerate resolver whose weight function is constantly zero, used to
exercise the division-by-zero path. -/
def zeroResolver : Resolver Unit where
  MolFromSmiles := fun _ => some ()
  CalcExactMolWt := fun _ => 0

/-- A reactant record that passes every check of the loop body: its SMILES is
present, non-empty (the spec counts an empty identifier as unresolvable) and
resolves, its mass is present and positive, and its mole ratio (defaulted
to 1) is positive. -/
def ValidReactant {Mol : Type} (R : Resolver Mol) (d : ReactantData) : Prop :=
  (∃ s, d.smiles = some s ∧ s ≠ "" ∧ (R.MolFromSmiles s).isSome) ∧
    (∃ w, d.weight_g = some w ∧ 0 < w) ∧ 0 < d.mole_ratio.getD 1

/-- The normalized mole count the loop body stores for a reactant whose SMILES
resolves: `(weight_g / mol_weight) / mole_ratio`, the ratio defaulting to 1
(lines 42-44 of the source). Zero on records the loop would reject. -/
def normValue {Mol : Type} (R : Resolver Mol) (d : ReactantData) : ℚ :=
  match d.smiles with
  | none => 0
  | some s =>
    match R.MolFromSmiles s with
    | none => 0
    | some mol => (d.weight_g.getD 0 / R.CalcExactMolWt mol) / d.mole_ratio.getD 1

/-- The pair `r` is the first entry of `l` attaining the minimum value:
everything before it is strictly larger and everything after it is at least
as large. This is the defining property of Python `min` with ties broken by
iteration order. -/
def IsFirstMin (l : List (String × ℚ)) (r : String × ℚ) : Prop :=
  ∃ l1 l2, l = l1 ++ r :: l2 ∧ (∀ p ∈ l1, r.2 < p.2) ∧ ∀ p ∈ l2, r.2 ≤ p.2

theorem isFirstMin_le {l : List (String × ℚ)} {r : String × ℚ}
    (h : IsFirstMin l r) : ∀ p ∈ l, r.2 ≤ p.2 := by
  obtain ⟨l1, l2, rfl, h1, h2⟩ := h
  intro p hp
  rcases List.mem_append.mp hp with hp | hp
  · exact le_of_lt (h1 p hp)
  · rcases List.mem_cons.mp hp with rfl | hp
    · exact le_refl _
    · exact h2 p hp

theorem isFirstMin_mem {l : List (String × ℚ)} {r : String × ℚ}
    (h : IsFirstMin l r) : r ∈ l := by
  obtain ⟨l1, l2, rfl, _, _⟩ := h
  simp

theorem minBy_isFirstMin :
    ∀ (l : List (String × ℚ)) (b : String × ℚ), IsFirstMin (b :: l) (minBy b l) := by
  intro l
  induction l with
  | nil => exact fun b => ⟨[], [], rfl, by simp, by simp⟩
  | cons p rest ih =>
    intro b
    rw [minBy]
    by_cases h : p.2 < b.2
    · rw [if_pos h]
      obtain ⟨l1, l2, heq, h1, h2⟩ := ih p
      have hle : (minBy p rest).2 ≤ p.2 :=
        isFirstMin_le (ih p) p (List.mem_cons_self _ _)
      refine ⟨b :: l1, l2, ?_, ?_, h2⟩
      · rw [List.cons_append, ← heq]
      · intro x hx
        rcases List.mem_cons.mp hx with rfl | hx
        · exact lt_of_le_of_lt hle h
        · exact h1 x hx
    · rw [if_neg h]
      push_neg at h
      obtain ⟨l1, l2, heq, h1, h2⟩ := ih b
      cases l1 with
      | nil =>
        simp only [List.nil_append, List.cons.injEq] at heq
        obtain ⟨hb, hl2⟩ := heq
        refine ⟨[], p :: rest, ?_, by simp, ?_⟩
        · rw [List.nil_append, ← hb]
        · intro x hx
          rcases List.mem_cons.mp hx with rfl | hx
          · rw [← hb]; exact h
          · exact h2 x (hl2 ▸ hx)
      | cons q l1t =>
        simp only [List.cons_append, List.cons.injEq] at heq
        obtain ⟨hq, hrest⟩ := heq
        have hrb : (minBy b rest).2 < b.2 := by
          have hx := h1 q (List.mem_cons_self _ _)
          rw [← hq] at hx
          exact hx
        refine ⟨b :: p :: l1t, l2, ?_, ?_, h2⟩
        · rw [List.cons_append, List.cons_append, ← hrest]
        · intro x hx
          rcases List.mem_cons.mp hx with rfl | hx
          · exact hrb
          rcases List.mem_cons.mp hx with rfl | hx
          · exact lt_of_lt_of_le hrb h
          · exact h1 x (List.mem_cons_of_mem _ hx)

theorem processReactant_valid {Mol : Type} (R : Resolver Mol)
    (hw : ∀ m, 0 < R.CalcExactMolWt m) (name : String) (d : ReactantData)
    (h : ValidReactant R d) :
    processReactant R name d = .ok (normValue R d) := by
  obtain ⟨⟨s, hs, hsne, hres⟩, ⟨w, hwg, hwpos⟩, hr⟩ := h
  obtain ⟨mol, hmol⟩ := Option.isSome_iff_exists.mp hres
  have h1 : (s == "") = false := beq_eq_false_iff_ne.mpr hsne
  have h2 : (w == 0) = false := beq_eq_false_iff_ne.mpr (ne_of_gt hwpos)
  have h3 : R.CalcExactMolWt mol ≠ 0 := ne_of_gt (hw mol)
  have h4 : d.mole_ratio.getD 1 ≠ 0 := ne_of_gt hr
  simp only [processReactant, normValue, hs, hwg, strFalsy, numFalsy,
    Option.getD_some, h1, h2, Bool.or_self, Bool.false_or, if_false,
    Bool.false_eq_true, hmol, h3, if_neg h3, if_neg h4]

theorem processReactants_valid {Mol : Type} (R : Resolver Mol)
    (hw : ∀ m, 0 < R.CalcExactMolWt m) :
    ∀ (l : List (String × ReactantData)) (acc : List (String × ℚ)),
      (∀ p ∈ l, ValidReactant R p.2) →
      processReactants R l acc =
        .ok (acc ++ l.map fun p => (p.1, normValue R p.2)) := by
  intro l
  induction l with
  | nil => intro acc _; simp [processReactants]
  | cons hd tl ih =>
    intro acc h
    obtain ⟨name, d⟩ := hd
    have hv := h (name, d) (List.mem_cons_self _ _)
    have hstep := processReactant_valid R hw name d hv
    have htl := ih (acc ++ [(name, normValue R d)])
      (fun p hp => h p (List.mem_cons_of_mem _ hp))
    simp only [processReactants, hstep, htl, List.map_cons, List.append_assoc,
      List.singleton_append]

theorem processReactants_append {Mol : Type} (R : Resolver Mol)
    (l1 l2 : List (String × ReactantData)) :
    ∀ acc, processReactants R (l1 ++ l2) acc =
      (processReactants R l1 acc).bind fun acc2 => processReactants R l2 acc2 := by
  induction l1 with
  | nil => intro acc; simp [processReactants, Except.bind]
  | cons hd tl ih =>
    intro acc
    obtain ⟨name, d⟩ := hd
    simp only [List.cons_append, processReactants]
    cases h : processReactant R name d with
    | error e => simp [Except.bind]
    | ok v => simp [ih]

theorem processReactants_ok_of_steps {Mol : Type} (R : Resolver Mol) :
    ∀ (l : List (String × ReactantData)) (acc : List (String × ℚ)),
      (∀ p ∈ l, ∃ v, processReactant R p.1 p.2 = .ok v) →
      ∃ acc2, processReactants R l acc = .ok acc2 := by
  intro l
  induction l with
  | nil => intro acc _; exact ⟨acc, rfl⟩
  | cons hd tl ih =>
    intro acc h
    obtain ⟨name, d⟩ := hd
    obtain ⟨v, hv⟩ := h (name, d) (List.mem_cons_self _ _)
    obtain ⟨acc2, hacc2⟩ := ih (acc ++ [(name, v)])
      (fun p hp => h p (List.mem_cons_of_mem _ hp))
    exact ⟨acc2, by simp only [processReactants, hv, hacc2]⟩

theorem processReactants_error_of_mem {Mol : Type} (R : Resolver Mol) :
    ∀ (l : List (String × ReactantData)) (acc : List (String × ℚ))
      (name : String) (d : ReactantData) (e0 : CalcError),
      (name, d) ∈ l → processReactant R name d = .error e0 →
      ∃ e, processReactants R l acc = .error e := by
  intro l
  induction l with
  | nil => intro acc name d e0 hmem; exact absurd hmem (List.not_mem_nil _)
  | cons hd tl ih =>
    intro acc name d e0 hmem hstep
    obtain ⟨n1, d1⟩ := hd
    rcases List.mem_cons.mp hmem with heq | hmem2
    · injection heq with hn hd2
      subst hn; subst hd2
      exact ⟨e0, by simp [processReactants, hstep]⟩
    · cases h1 : processReactant R n1 d1 with
      | error e1 => exact ⟨e1, by simp [processReactants, h1]⟩
      | ok v =>
        obtain ⟨e, he⟩ := ih (acc ++ [(n1, v)]) name d e0 hmem2 hstep
        exact ⟨e, by simp only [processReactants, h1, he]⟩

theorem processReactant_missing {Mol : Type} (R : Resolver Mol) (name : String)
    (d : ReactantData) (h : (strFalsy d.smiles || numFalsy d.weight_g) = true) :
    processReactant R name d = .error (.missingField name) := by
  simp [processReactant, h]

theorem processReactant_parseFailure {Mol : Type} (R : Resolver Mol)
    (name : String) (d : ReactantData) (s : String)
    (hs : d.smiles = some s) (hsne : s ≠ "") (hwt : numFalsy d.weight_g = false)
    (hres : R.MolFromSmiles s = none) :
    processReactant R name d = .error (.reactantParseFailure name s) := by
  have h1 : (s == "") = false := beq_eq_false_iff_ne.mpr hsne
  simp [processReactant, hs, strFalsy, h1, hwt, hres]

theorem processReactant_error_of_unresolvable {Mol : Type} (R : Resolver Mol)
    (name : String) (d : ReactantData) (s : String)
    (hs : d.smiles = some s) (hres : R.MolFromSmiles s = none) :
    ∃ e, processReactant R name d = .error e := by
  by_cases hfal : (strFalsy d.smiles || numFalsy d.weight_g) = true
  · exact ⟨.missingField name, processReactant_missing R name d hfal⟩
  · simp only [Bool.not_eq_true] at hfal
    rw [hs] at hfal
    obtain ⟨hf1, hf2⟩ := Bool.or_eq_false_iff.mp hfal
    refine ⟨.reactantParseFailure name s, ?_⟩
    simp [processReactant, hs, hf1, hf2, hres]

theorem processReactant_zeroWeight {Mol : Type} (R : Resolver Mol)
    (name : String) (d : ReactantData) (s : String) (w : ℚ) (mol : Mol)
    (hs : d.smiles = some s) (hsne : s ≠ "") (hwg : d.weight_g = some w)
    (hwne : w ≠ 0) (hmol : R.MolFromSmiles s = some mol)
    (hzero : R.CalcExactMolWt mol = 0) :
    processReactant R name d = .error (.unexpectedReactantError name) := by
  have h1 : (s == "") = false := beq_eq_false_iff_ne.mpr hsne
  have h2 : (w == 0) = false := beq_eq_false_iff_ne.mpr hwne
  simp [processReactant, hs, hwg, strFalsy, numFalsy, h1, h2, hmol, hzero]

theorem calculate_of_process_error {Mol : Type} (R : Resolver Mol)
    (reactants : List (String × ReactantData)) (ps : String) (q : ℚ)
    (e : CalcError) (h : processReactants R reactants [] = .error e) :
    calculate_theoretical_yield R reactants ps q = .error e := by
  simp [calculate_theoretical_yield, h]

theorem calculate_of_process_ok_success {Mol : Type} (R : Resolver Mol)
    (reactants : List (String × ReactantData)) (p0 : String × ℚ)
    (l : List (String × ℚ)) (ps : String) (q : ℚ) (pm : Mol)
    (h : processReactants R reactants [] = .ok (p0 :: l))
    (hp : R.MolFromSmiles ps = some pm) :
    calculate_theoretical_yield R reactants ps q =
      .success ((minBy p0 l).2 * q * R.CalcExactMolWt pm) (minBy p0 l).1 := by
  simp [calculate_theoretical_yield, h, hp]

theorem calculate_of_process_ok_noproduct {Mol : Type} (R : Resolver Mol)
    (reactants : List (String × ReactantData)) (p0 : String × ℚ)
    (l : List (String × ℚ)) (ps : String) (q : ℚ)
    (h : processReactants R reactants [] = .ok (p0 :: l))
    (hp : R.MolFromSmiles ps = none) :
    calculate_theoretical_yield R reactants ps q =
      .error (.productParseFailure ps) := by
  simp [calculate_theoretical_yield, h, hp]

theorem calculate_error_of_first_failure {Mol : Type} (R : Resolver Mol)
    (pre : List (String × ReactantData)) (name : String) (d : ReactantData)
    (rest : List (String × ReactantData)) (ps : String) (q : ℚ) (e : CalcError)
    (hpre : ∀ p ∈ pre, ∃ v, processReactant R p.1 p.2 = .ok v)
    (hstep : processReactant R name d = .error e) :
    calculate_theoretical_yield R (pre ++ (name, d) :: rest) ps q = .error e := by
  obtain ⟨acc2, hacc2⟩ := processReactants_ok_of_steps R pre [] hpre
  have hall : processReactants R (pre ++ (name, d) :: rest) [] = .error e := by
    rw [processReactants_append R pre ((name, d) :: rest) [], hacc2]
    simp [Except.bind, processReactants, hstep]
  exact calculate_of_process_error R _ ps q e hall

theorem calculate_error_of_mem_failure {Mol : Type} (R : Resolver Mol)
    (reactants : List (String × ReactantData)) (name : String)
    (d : ReactantData) (e0 : CalcError) (ps : String) (q : ℚ)
    (hmem : (name, d) ∈ reactants)
    (hstep : processReactant R name d = .error e0) :
    ∃ e, calculate_theoretical_yield R reactants ps q = .error e := by
  obtain ⟨e, he⟩ :=
    processReactants_error_of_mem R reactants [] name d e0 hmem hstep
  exact ⟨e, calculate_of_process_error R _ ps q e he⟩

example :
    calculate_theoretical_yield demoResolver
      [("ethanol", ⟨some "CCO", some 46, some 1⟩)] "O" 1 =
      .success 18 "ethanol" := by
  simp [calculate_theoretical_yield, processReactants, processReactant,
    demoResolver, strFalsy, numFalsy, minBy]

example :
    calculate_theoretical_yield demoResolver [] "O" 1 =
      .error .noReactants := by
  simp [calculate_theoretical_yield, processReactants]

example :
    calculate_theoretical_yield zeroResolver
      [("A", ⟨some "C", some 10, some 1⟩)] "O" 1 =
      .error (.unexpectedReactantError "A") := by
  simp [calculate_theoretical_yield, processReactants, processReactant,
    zeroResolver, strFalsy, numFalsy, minBy]

theorem demoResolver_pos : ∀ m, 0 < demoResolver.CalcExactMolWt m := by
  intro m
  simp only [demoResolver]
  split
  · norm_num
  · split <;> norm_num

/-- C1: for a non-empty reactant list in which every reactant is valid (its
SMILES is present, non-empty and resolves, its mass is positive, its mole
ratio, defaulting to 1, is positive), with the resolver honouring its
contract of positive exact weights, and with a resolvable product SMILES,
the calculator returns a success record whose yield in grams is
(minimum over reactants of (mass / molecular weight) / mole ratio) ×
product mole ratio × product molecular weight; and in the single-reactant
case with both mole ratios equal to 1 this is
(mass / reactant weight) × product weight. -/
theorem C1_theoretical_yield_formula :
    (∀ (Mol : Type) (R : Resolver Mol) (reactants : List (String × ReactantData))
        (ps : String) (q : ℚ) (pm : Mol),
        (∀ m, 0 < R.CalcExactMolWt m) →
        (∀ p ∈ reactants, ValidReactant R p.2) →
        reactants ≠ [] →
        R.MolFromSmiles ps = some pm →
        ∃ r, IsFirstMin (reactants.map fun p => (p.1, normValue R p.2)) r ∧
          (∀ p ∈ reactants, r.2 ≤ normValue R p.2) ∧
          calculate_theoretical_yield R reactants ps q =
            .success (r.2 * q * R.CalcExactMolWt pm) r.1) ∧
    (∀ (Mol : Type) (R : Resolver Mol) (name sr ps : String) (w : ℚ)
        (d : ReactantData) (mol pm : Mol),
        (∀ m, 0 < R.CalcExactMolWt m) →
        d.smiles = some sr → sr ≠ "" → d.weight_g = some w → 0 < w →
        d.mole_ratio.getD 1 = 1 →
        R.MolFromSmiles sr = some mol → R.MolFromSmiles ps = some pm →
        calculate_theoretical_yield R [(name, d)] ps 1 =
          .success ((w / R.CalcExactMolWt mol) * R.CalcExactMolWt pm) name) := by
  constructor
  · intro Mol R reactants ps q pm hw hv hne hp
    cases reactants with
    | nil => exact absurd rfl hne
    | cons hd tl =>
      have hproc : processReactants R (hd :: tl) [] =
          .ok ((hd.1, normValue R hd.2) ::
            tl.map (fun p => (p.1, normValue R p.2))) := by
        have h0 := processReactants_valid R hw (hd :: tl) [] hv
        simpa using h0
      have hfm := minBy_isFirstMin (tl.map (fun p => (p.1, normValue R p.2)))
        (hd.1, normValue R hd.2)
      have hmapeq : (hd :: tl).map (fun p => (p.1, normValue R p.2)) =
          (hd.1, normValue R hd.2) :: tl.map (fun p => (p.1, normValue R p.2)) := rfl
      refine ⟨minBy (hd.1, normValue R hd.2)
        (tl.map (fun p => (p.1, normValue R p.2))), ?_, ?_, ?_⟩
      · rw [hmapeq]; exact hfm
      · intro p hpmem
        have hmap : (p.1, normValue R p.2) ∈
            (hd :: tl).map (fun x => (x.1, normValue R x.2)) :=
          List.mem_map_of_mem _ hpmem
        rw [hmapeq] at hmap
        exact isFirstMin_le hfm _ hmap
      · exact calculate_of_process_ok_success R (hd :: tl) _ _ ps q pm hproc hp
  · intro Mol R name sr ps w d mol pm hw hs hsne hwg hwpos hratio hmol hp
    have hv : ValidReactant R d :=
      ⟨⟨sr, hs, hsne, by rw [hmol]; rfl⟩, ⟨w, hwg, hwpos⟩, by rw [hratio]; norm_num⟩
    have hnv : normValue R d = w / R.CalcExactMolWt mol := by
      simp [normValue, hs, hmol, hwg, hratio]
    have hproc : processReactants R [(name, d)] [] = .ok [(name, normValue R d)] := by
      simp [processReactants, processReactant_valid R hw name d hv]
    have hc := calculate_of_process_ok_success R [(name, d)] (name, normValue R d)
      [] ps 1 pm hproc hp
    rw [hc]
    simp [minBy, hnv]

/-- Witness for C1 at a concrete input: a single reactant "ethanol" with the
demo resolver gives yield (46 / 46) × 18 = 18 and limiting reactant
"ethanol". -/
theorem C1_theoretical_yield_formula_witness :
    calculate_theoretical_yield demoResolver
      [("ethanol", ⟨some "CCO", some 46, some 1⟩)] "O" 1 =
      .success 18 "ethanol" := by
  have h := C1_theoretical_yield_formula.2 String demoResolver "ethanol" "CCO" "O"
    46 ⟨some "CCO", some 46, some 1⟩ "CCO" "O" demoResolver_pos rfl (by decide)
    rfl (by norm_num) rfl rfl rfl
  rw [h, show demoResolver.CalcExactMolWt "CCO" = 46 from rfl,
    show demoResolver.CalcExactMolWt "O" = 18 from rfl]
  norm_num

/-- C2: for a reactant whose SMILES is present, non-empty and resolves, whose
mass is present and truthy, and whose mole ratio and molecular weight do not
trip the division guard, the loop body stores the normalized mole count
(mass / exact weight) / mole ratio, and an absent mole ratio field defaults
to 1. -/
theorem C2_normalized_moles :
    ∀ (Mol : Type) (R : Resolver Mol) (name : String) (d : ReactantData)
      (s : String) (w : ℚ) (mol : Mol),
      d.smiles = some s → s ≠ "" → d.weight_g = some w → w ≠ 0 →
      R.MolFromSmiles s = some mol → R.CalcExactMolWt mol ≠ 0 →
      d.mole_ratio.getD 1 ≠ 0 →
      processReactant R name d =
        .ok ((w / R.CalcExactMolWt mol) / d.mole_ratio.getD 1) ∧
      (d.mole_ratio = none →
        processReactant R name d = .ok (w / R.CalcExactMolWt mol)) := by
  intro Mol R name d s w mol hs hsne hwg hwne hmol hWne hrne
  have h1 : (s == "") = false := beq_eq_false_iff_ne.mpr hsne
  have h2 : (w == 0) = false := beq_eq_false_iff_ne.mpr hwne
  have hmain : processReactant R name d =
      .ok ((w / R.CalcExactMolWt mol) / d.mole_ratio.getD 1) := by
    simp [processReactant, hs, hwg, strFalsy, numFalsy, h1, h2, hmol,
      if_neg hWne, if_neg hrne]
  refine ⟨hmain, fun hnone => ?_⟩
  rw [hmain, hnone]
  simp

/-- Witness for C2 at a concrete input: reactant with absent mole ratio and
the demo resolver gives normalized moles 46 / 46 = 1. -/
theorem C2_normalized_moles_witness :
    processReactant demoResolver "ethanol" ⟨some "CCO", some 46, none⟩ =
      .ok 1 := by
  have h := (C2_normalized_moles String demoResolver "ethanol"
    ⟨some "CCO", some 46, none⟩ "CCO" 46 "CCO" rfl (by decide) rfl (by norm_num)
    rfl (by decide) (by norm_num)).2 rfl
  rw [h, show demoResolver.CalcExactMolWt "CCO" = 46 from rfl]
  norm_num

/-- C3: whenever reactant processing succeeds with a non-empty collection of
normalized mole counts and the product SMILES resolves, the reactant reported
as limiting is the first entry in iteration order attaining the minimum
normalized mole count (so ties go to the earlier entry); in particular with
exactly two processed reactants A and B where the value of A is strictly
smaller, A is reported limiting regardless of the raw masses behind the
values. -/
theorem C3_limiting_reactant :
    (∀ (Mol : Type) (R : Resolver Mol) (reactants : List (String × ReactantData))
        (ns : List (String × ℚ)) (ps : String) (q : ℚ) (pm : Mol),
        processReactants R reactants [] = .ok ns → ns ≠ [] →
        R.MolFromSmiles ps = some pm →
        ∃ r, IsFirstMin ns r ∧
          calculate_theoretical_yield R reactants ps q =
            .success (r.2 * q * R.CalcExactMolWt pm) r.1) ∧
    (∀ (Mol : Type) (R : Resolver Mol) (reactants : List (String × ReactantData))
        (a b : String) (va vb : ℚ) (ps : String) (q : ℚ) (pm : Mol),
        processReactants R reactants [] = .ok [(a, va), (b, vb)] → va < vb →
        R.MolFromSmiles ps = some pm →
        calculate_theoretical_yield R reactants ps q =
          .success (va * q * R.CalcExactMolWt pm) a) := by
  constructor
  · intro Mol R reactants ns ps q pm hproc hne hp
    cases ns with
    | nil => exact absurd rfl hne
    | cons p0 l =>
      exact ⟨minBy p0 l, minBy_isFirstMin l p0,
        calculate_of_process_ok_success R reactants p0 l ps q pm hproc hp⟩
  · intro Mol R reactants a b va vb ps q pm hproc hlt hp
    have hc := calculate_of_process_ok_success R reactants (a, va) [(b, vb)]
      ps q pm hproc hp
    have hnot : ¬((b, vb).2 < (a, va).2) := not_lt.mpr (le_of_lt hlt)
    rw [hc, minBy, if_neg hnot, minBy]

/-- Witness for C3 at a concrete input: reactant A has normalized moles 1,
reactant B has normalized moles 10 from a larger raw mass, and A is reported
limiting with yield 1 × 1 × 18 = 18. -/
theorem C3_limiting_reactant_witness :
    calculate_theoretical_yield demoResolver
      [("A", ⟨some "CCO", some 46, some 1⟩), ("B", ⟨some "C", some 100, some 1⟩)]
      "O" 1 = .success 18 "A" := by
  have hproc : processReactants demoResolver
      [("A", ⟨some "CCO", some 46, some 1⟩), ("B", ⟨some "C", some 100, some 1⟩)]
      [] = .ok [("A", 1), ("B", 10)] := by
    simp [processReactants, processReactant, demoResolver, strFalsy, numFalsy]
    norm_num
  have h := C3_limiting_reactant.2 String demoResolver
    [("A", ⟨some "CCO", some 46, some 1⟩), ("B", ⟨some "C", some 100, some 1⟩)]
    "A" "B" 1 10 "O" 1 "O" hproc (by norm_num) rfl
  rw [h, show demoResolver.CalcExactMolWt "O" = 18 from rfl]
  norm_num

/-- C4: the empty reactant list yields the no-reactants error record for
every resolver, product SMILES and product mole ratio, and never a crash
(the function is total). -/
theorem C4_empty_reactants :
    ∀ (Mol : Type) (R : Resolver Mol) (ps : String) (q : ℚ),
      calculate_theoretical_yield R [] ps q = .error .noReactants := by
  intro Mol R ps q
  simp [calculate_theoretical_yield, processReactants]

/-- C5 (amended): an unresolvable reactant SMILES always aborts the whole
calculation with a failure record, never a partial success; the failure is
the ParseFailure-kind record naming that reactant whenever every reactant
before it in iteration order processes successfully and the reactant itself
passes the missing-field check; and when all reactants are valid, an
unresolvable product SMILES gives the product ParseFailure record. The
original claim also promised a ParseFailure-kind record when an earlier
reactant fails differently, which the code does not do. -/
theorem C5_parse_failure_aborts :
    (∀ (Mol : Type) (R : Resolver Mol) (reactants : List (String × ReactantData))
        (name s ps : String) (d : ReactantData) (q : ℚ),
        (name, d) ∈ reactants → d.smiles = some s → R.MolFromSmiles s = none →
        ∃ e, calculate_theoretical_yield R reactants ps q = .error e) ∧
    (∀ (Mol : Type) (R : Resolver Mol) (pre rest : List (String × ReactantData))
        (name s ps : String) (d : ReactantData) (q : ℚ),
        (∀ p ∈ pre, ∃ v, processReactant R p.1 p.2 = .ok v) →
        d.smiles = some s → s ≠ "" → numFalsy d.weight_g = false →
        R.MolFromSmiles s = none →
        calculate_theoretical_yield R (pre ++ (name, d) :: rest) ps q =
          .error (.reactantParseFailure name s)) ∧
    (∀ (Mol : Type) (R : Resolver Mol) (reactants : List (String × ReactantData))
        (ps : String) (q : ℚ),
        (∀ m, 0 < R.CalcExactMolWt m) →
        (∀ p ∈ reactants, ValidReactant R p.2) →
        reactants ≠ [] → R.MolFromSmiles ps = none →
        calculate_theoretical_yield R reactants ps q =
          .error (.productParseFailure ps)) := by
  refine ⟨?_, ?_, ?_⟩
  · intro Mol R reactants name s ps d q hmem hs hres
    obtain ⟨e0, hstep⟩ := processReactant_error_of_unresolvable R name d s hs hres
    exact calculate_error_of_mem_failure R reactants name d e0 ps q hmem hstep
  · intro Mol R pre rest name s ps d q hpre hs hsne hwt hres
    exact calculate_error_of_first_failure R pre name d rest ps q _ hpre
      (processReactant_parseFailure R name d s hs hsne hwt hres)
  · intro Mol R reactants ps q hw hv hne hres
    cases reactants with
    | nil => exact absurd rfl hne
    | cons hd tl =>
      have hproc : processReactants R (hd :: tl) [] =
          .ok ((hd.1, normValue R hd.2) ::
            tl.map (fun p => (p.1, normValue R p.2))) := by
        have h0 := processReactants_valid R hw (hd :: tl) [] hv
        simpa using h0
      exact calculate_of_process_ok_noproduct R (hd :: tl) _ _ ps q hproc hres

/-- Witness for C5 at a concrete input: a single reactant with the
unresolvable SMILES "XX" gives the reactant ParseFailure record. -/
theorem C5_parse_failure_aborts_witness :
    calculate_theoretical_yield demoResolver
      [("B", ⟨some "XX", some 1, some 1⟩)] "O" 1 =
      .error (.reactantParseFailure "B" "XX") := by
  have h := C5_parse_failure_aborts.2.1 String demoResolver [] [] "B" "XX" "O"
    ⟨some "XX", some 1, some 1⟩ 1
    (fun p hp => absurd hp (List.not_mem_nil p)) rfl (by decide) (by decide) rfl
  exact h

/-- Counterexample to C5 as stated: reactant "B" has the unresolvable SMILES
"XX", so the input satisfies the premise, but reactant "A" is missing its
mass and is reached first, so the result is the MissingField record, not a
ParseFailure-kind record. -/
theorem C5_counterexample :
    demoResolver.MolFromSmiles "XX" = none ∧
    calculate_theoretical_yield demoResolver
      [("A", ⟨some "C", none, some 1⟩), ("B", ⟨some "XX", some 1, some 1⟩)]
      "O" 1 = .error (.missingField "A") ∧
    isParseFailureResult (calculate_theoretical_yield demoResolver
      [("A", ⟨some "C", none, some 1⟩), ("B", ⟨some "XX", some 1, some 1⟩)]
      "O" 1) = false := by
  have h : calculate_theoretical_yield demoResolver
      [("A", ⟨some "C", none, some 1⟩), ("B", ⟨some "XX", some 1, some 1⟩)]
      "O" 1 = .error (.missingField "A") := by
    simp [calculate_theoretical_yield, processReactants, processReactant,
      strFalsy, numFalsy]
  exact ⟨rfl, h, by rw [h]; rfl⟩

/-- C6 (amended): when the first failing reactant in iteration order has an
absent or falsy SMILES or mass (every earlier reactant processing
successfully), the calculator returns the MissingField record naming that
reactant, for every product SMILES and ratio alike, so the product-resolution
step is never consulted. The original claim quantified over all inputs with
some absent field, but an earlier reactant failing differently (for example
an unresolvable SMILES) pre-empts the MissingField record. -/
theorem C6_missing_field_first :
    ∀ (Mol : Type) (R : Resolver Mol) (pre rest : List (String × ReactantData))
      (name ps : String) (d : ReactantData) (q : ℚ),
      (∀ p ∈ pre, ∃ v, processReactant R p.1 p.2 = .ok v) →
      (strFalsy d.smiles || numFalsy d.weight_g) = true →
      calculate_theoretical_yield R (pre ++ (name, d) :: rest) ps q =
        .error (.missingField name) := by
  intro Mol R pre rest name ps d q hpre hfal
  exact calculate_error_of_first_failure R pre name d rest ps q _ hpre
    (processReactant_missing R name d hfal)

/-- Witness for C6 at a concrete input: reactant "A" is valid, reactant "B"
has no mass field, and the result is the MissingField record naming "B" even
though the product SMILES "XX" would itself be unresolvable, showing the
product is never resolved. -/
theorem C6_missing_field_first_witness :
    calculate_theoretical_yield demoResolver
      [("A", ⟨some "CCO", some 46, some 1⟩), ("B", ⟨some "C", none, some 1⟩)]
      "XX" 1 = .error (.missingField "B") := by
  have hpre : ∀ p ∈ [("A", (⟨some "CCO", some 46, some 1⟩ : ReactantData))],
      ∃ v, processReactant demoResolver p.1 p.2 = .ok v := by
    intro p hp
    rw [List.mem_singleton] at hp
    subst hp
    exact ⟨_, processReactant_valid demoResolver demoResolver_pos _ _
      ⟨⟨"CCO", rfl, by decide, rfl⟩, ⟨46, rfl, by norm_num⟩, by norm_num⟩⟩
  have h := C6_missing_field_first String demoResolver
    [("A", ⟨some "CCO", some 46, some 1⟩)] [] "B" "XX"
    ⟨some "C", none, some 1⟩ 1 hpre rfl
  exact h

/-- Counterexample to C6 as stated: reactant "B" is missing its mass field,
so the input satisfies the premise, but reactant "A" comes first with an
unresolvable SMILES, so the result is a ParseFailure record naming "A"
rather than a MissingField record naming "B". -/
theorem C6_counterexample :
    calculate_theoretical_yield demoResolver
      [("A", ⟨some "QQ", some 1, some 1⟩), ("B", ⟨some "C", none, some 1⟩)]
      "O" 1 = .error (.reactantParseFailure "A" "QQ") ∧
    isMissingFieldResult (calculate_theoretical_yield demoResolver
      [("A", ⟨some "QQ", some 1, some 1⟩), ("B", ⟨some "C", none, some 1⟩)]
      "O" 1) = false := by
  have h : calculate_theoretical_yield demoResolver
      [("A", ⟨some "QQ", some 1, some 1⟩), ("B", ⟨some "C", none, some 1⟩)]
      "O" 1 = .error (.reactantParseFailure "A" "QQ") := by
    simp [calculate_theoretical_yield, processReactants, processReactant,
      demoResolver, strFalsy, numFalsy]
  exact ⟨h, by rw [h]; rfl⟩

/-- C7: the calculator is deterministic and pure: two invocations with
identical inputs and extensionally identical resolver behaviour return
identical results; there is no hidden state in the embedding because the
source function reads and writes no global state. -/
theorem C7_deterministic :
    ∀ (Mol : Type) (R R2 : Resolver Mol)
      (reactants : List (String × ReactantData)) (ps : String) (q : ℚ),
      (∀ s, R.MolFromSmiles s = R2.MolFromSmiles s) →
      (∀ m, R.CalcExactMolWt m = R2.CalcExactMolWt m) →
      calculate_theoretical_yield R reactants ps q =
        calculate_theoretical_yield R2 reactants ps q := by
  intro Mol R R2 reactants ps q h1 h2
  have hR : R = R2 := by
    cases R
    cases R2
    congr 1
    · exact funext h1
    · exact funext h2
  rw [hR]

/-- Witness for C7 at a concrete input: two invocations with the demo
resolver on the same reactant list coincide. -/
theorem C7_deterministic_witness :
    calculate_theoretical_yield demoResolver
      [("ethanol", ⟨some "CCO", some 46, some 1⟩)] "O" 1 =
      calculate_theoretical_yield demoResolver
        [("ethanol", ⟨some "CCO", some 46, some 1⟩)] "O" 1 :=
  C7_deterministic String demoResolver demoResolver
    [("ethanol", ⟨some "CCO", some 46, some 1⟩)] "O" 1
    (fun _ => rfl) (fun _ => rfl)

/-- C8 (amended): the division `mass / weight` is not preceded by any
explicit validation of the molecular weight, and there is no
ValidationError-kind record; but a zero molecular weight does not silently
propagate an infinite result: Python float division raises
`ZeroDivisionError`, which the umbrella handler converts into the
UnexpectedFailure-kind error record naming the reactant. -/
theorem C8_zero_weight_division :
    ∀ (Mol : Type) (R : Resolver Mol) (rest : List (String × ReactantData))
      (name s ps : String) (d : ReactantData) (w : ℚ) (mol : Mol) (q : ℚ),
      d.smiles = some s → s ≠ "" → d.weight_g = some w → w ≠ 0 →
      R.MolFromSmiles s = some mol → R.CalcExactMolWt mol = 0 →
      calculate_theoretical_yield R ((name, d) :: rest) ps q =
        .error (.unexpectedReactantError name) := by
  intro Mol R rest name s ps d w mol q hs hsne hwg hwne hmol hzero
  have hstep := processReactant_zeroWeight R name d s w mol hs hsne hwg hwne
    hmol hzero
  have hproc : processReactants R ((name, d) :: rest) [] =
      .error (.unexpectedReactantError name) := by
    simp [processReactants, hstep]
  exact calculate_of_process_error R _ ps q _ hproc

/-- Witness for C8 at a concrete input: under the constant-zero-weight
resolver a positive mass produces the UnexpectedFailure-kind record. -/
theorem C8_zero_weight_division_witness :
    calculate_theoretical_yield zeroResolver
      [("A", ⟨some "C", some 10, some 1⟩)] "O" 1 =
      .error (.unexpectedReactantError "A") :=
  C8_zero_weight_division Unit zeroResolver [] "A" "C" "O"
    ⟨some "C", some 10, some 1⟩ 10 () 1 rfl (by decide) rfl (by norm_num)
    rfl rfl

/-- Counterexample to C8 as stated: with a resolver returning weight zero the
result at a concrete input is the UnexpectedFailure-kind error record, not a
silently propagated infinite success value (and also not a ParseFailure or
MissingField record). -/
theorem C8_counterexample :
    zeroResolver.CalcExactMolWt () = 0 ∧
    calculate_theoretical_yield zeroResolver
      [("B", ⟨some "C", some 10, some 1⟩)] "O" 1 =
      .error (.unexpectedReactantError "B") ∧
    isSuccessResult (calculate_theoretical_yield zeroResolver
      [("B", ⟨some "C", some 10, some 1⟩)] "O" 1) = false := by
  have h : calculate_theoretical_yield zeroResolver
      [("B", ⟨some "C", some 10, some 1⟩)] "O" 1 =
      .error (.unexpectedReactantError "B") := by
    simp [calculate_theoretical_yield, processReactants, processReactant,
      zeroResolver, strFalsy, numFalsy]
  exact ⟨rfl, h, by rw [h]; rfl⟩

/-- C9: the calculator is total at its boundary: for every input it returns
either an error record or a success record; every fault the source can raise
while processing a reactant (including the `ZeroDivisionError` from a zero
molecular weight, embedded as `unexpectedReactantError`) is converted into
an error record, and the product block raises nothing in this model. -/
theorem C9_total_function :
    ∀ (Mol : Type) (R : Resolver Mol) (reactants : List (String × ReactantData))
      (ps : String) (q : ℚ),
      (∃ e, calculate_theoretical_yield R reactants ps q = .error e) ∨
      ∃ y l, calculate_theoretical_yield R reactants ps q = .success y l := by
  intro Mol R reactants ps q
  cases h : calculate_theoretical_yield R reactants ps q with
  | success y l => exact Or.inr ⟨y, l, rfl⟩
  | error e => exact Or.inl ⟨e, rfl⟩

/-- C10: a reactant whose mass field is present but zero, or whose SMILES
field is present but the empty string, is treated exactly like one with the
field absent: substituting one form for the other anywhere in the input
leaves the result unchanged, and when the reactants before it process
successfully the result is the MissingField record naming it rather than a
computation with zero mass. -/
theorem C10_zero_mass_like_absent :
    ∀ (Mol : Type) (R : Resolver Mol) (pre rest : List (String × ReactantData))
      (name ps : String) (d : ReactantData) (q : ℚ),
      (calculate_theoretical_yield R
          (pre ++ (name, { d with weight_g := some 0 }) :: rest) ps q =
        calculate_theoretical_yield R
          (pre ++ (name, { d with weight_g := none }) :: rest) ps q) ∧
      (calculate_theoretical_yield R
          (pre ++ (name, { d with smiles := some "" }) :: rest) ps q =
        calculate_theoretical_yield R
          (pre ++ (name, { d with smiles := none }) :: rest) ps q) ∧
      ((∀ p ∈ pre, ∃ v, processReactant R p.1 p.2 = .ok v) →
        calculate_theoretical_yield R
          (pre ++ (name, { d with weight_g := some 0 }) :: rest) ps q =
          .error (.missingField name)) ∧
      ((∀ p ∈ pre, ∃ v, processReactant R p.1 p.2 = .ok v) →
        calculate_theoretical_yield R
          (pre ++ (name, { d with smiles := some "" }) :: rest) ps q =
          .error (.missingField name)) := by
  intro Mol R pre rest name ps d q
  have hw0 : processReactant R name { d with weight_g := some 0 } =
      .error (.missingField name) :=
    processReactant_missing R name _ (by simp [numFalsy])
  have hwn : processReactant R name { d with weight_g := none } =
      .error (.missingField name) :=
    processReactant_missing R name _ (by simp [numFalsy])
  have hs0 : processReactant R name { d with smiles := some "" } =
      .error (.missingField name) :=
    processReactant_missing R name _ (by simp [strFalsy])
  have hsn : processReactant R name { d with smiles := none } =
      .error (.missingField name) :=
    processReactant_missing R name _ (by simp [strFalsy])
  have key : ∀ d1 d2 : ReactantData,
      processReactant R name d1 = .error (.missingField name) →
      processReactant R name d2 = .error (.missingField name) →
      calculate_theoretical_yield R (pre ++ (name, d1) :: rest) ps q =
        calculate_theoretical_yield R (pre ++ (name, d2) :: rest) ps q := by
    intro d1 d2 h1 h2
    have hproc : processReactants R (pre ++ (name, d1) :: rest) [] =
        processReactants R (pre ++ (name, d2) :: rest) [] := by
      rw [processReactants_append, processReactants_append]
      congr 1
      funext acc2
      simp [processReactants, h1, h2]
    unfold calculate_theoretical_yield
    rw [hproc]
  refine ⟨key _ _ hw0 hwn, key _ _ hs0 hsn, fun hpre => ?_, fun hpre => ?_⟩
  · exact calculate_error_of_first_failure R pre name _ rest ps q _ hpre hw0
  · exact calculate_error_of_first_failure R pre name _ rest ps q _ hpre hs0

/-- Witness for C10 at a concrete input: a zero mass field behaves exactly
like an absent one and produces the MissingField record. -/
theorem C10_zero_mass_like_absent_witness :
    (calculate_theoretical_yield demoResolver
        [("A", ⟨some "CCO", some 0, some 1⟩)] "O" 1 =
      calculate_theoretical_yield demoResolver
        [("A", ⟨some "CCO", none, some 1⟩)] "O" 1) ∧
    calculate_theoretical_yield demoResolver
      [("A", ⟨some "CCO", some 0, some 1⟩)] "O" 1 =
      .error (.missingField "A") := by
  have h := C10_zero_mass_like_absent String demoResolver [] [] "A" "O"
    ⟨some "CCO", some 46, some 1⟩ 1
  exact ⟨h.1, h.2.2.1 (fun p hp => absurd hp (List.not_mem_nil p))⟩
